import Mathlib

/-!
Verification development for the grid/storage core of ifs-physics-common:
the interned dimension symbols and their algebra (ifs_physics_common/grid.py),
grid concretization and storage addressing, the assign-with-tiling routine and
the temporary storage pool (ifs_physics_common/storage.py), plus the legacy
framework variants (ifs_physics_common/framework/grid.py) where they differ.
Python floats are modelled as canonical dyadic rationals (exact for every
float value, in particular the half-step offsets the code manipulates),
Python ints as integers, and object identity as indices into the process-wide
intern table or into the allocation heap.
-/

set_option maxRecDepth 10000
set_option synthInstance.maxSize 1024

namespace IfsPhys

/-- A Python float value, modelled exactly as a dyadic rational
mant / 2 ^ exp in canonical form (mantissa odd, or exponent zero).
Canonicity makes structural equality coincide with numeric equality, the
equality Python applies to floats in comparisons and dict-key hashing. -/
structure PyFloat where
  mant : ℤ
  exp : ℕ
  canon : mant % 2 ≠ 0 ∨ exp = 0

instance : DecidableEq PyFloat := fun a b =>
  if h : a.mant = b.mant ∧ a.exp = b.exp then
    isTrue (by cases a; cases b; simp only at h; cases h.1; cases h.2; rfl)
  else
    isFalse (by intro he; cases he; exact h ⟨rfl, rfl⟩)

/-- Bring an arbitrary dyadic mant / 2 ^ exp into canonical form. -/
def canonize : ℤ → ℕ → PyFloat
  | m, 0 => ⟨m, 0, Or.inr rfl⟩
  | m, e + 1 =>
    if h : m % 2 = 0 then canonize (m / 2) e else ⟨m, e + 1, Or.inl h⟩

/-- Exact float addition. -/
def PyFloat.add (a b : PyFloat) : PyFloat :=
  canonize (a.mant * 2 ^ b.exp + b.mant * 2 ^ a.exp) (a.exp + b.exp)

/-- Exact float negation. -/
def PyFloat.neg (a : PyFloat) : PyFloat :=
  ⟨-a.mant, a.exp, by rcases a.canon with h | h; exact Or.inl (by omega); exact Or.inr h⟩

/-- The float 0.0. -/
def pf0 : PyFloat := ⟨0, 0, Or.inr rfl⟩

/-- The float 0.5. -/
def pfHalf : PyFloat := ⟨1, 1, Or.inl (by decide)⟩

/-- The float -0.5. -/
def pfNegHalf : PyFloat := ⟨-1, 1, Or.inl (by decide)⟩

/-- The float 1.0. -/
def pfOne : PyFloat := ⟨1, 0, Or.inr rfl⟩

/-- The rational value of a modelled float. -/
def PyFloat.val (a : PyFloat) : ℚ := (a.mant : ℚ) / 2 ^ a.exp

/-- Attribute record of an interned dimension symbol, mirroring class
AbstractGridDim of ifs_physics_common.grid: name, axis, staggering offset
and direction. -/
structure GridDim where
  name : String
  axis : ℤ
  offset : PyFloat
  direction : ℤ
deriving DecidableEq

/-- A positional argument tuple accepted by the AbstractGridDim constructor:
name and axis are mandatory, offset and direction default to 0 and 1.
MetaDim.__call__ keys the intern table DIM_INSTANCES by hash(args), so the
arity of the call is part of the key; numerically equal tuples of the same
arity hash equal, which the canonical-dyadic representation captures. -/
inductive DimArgs where
  | two (name : String) (axis : ℤ)
  | three (name : String) (axis : ℤ) (offset : PyFloat)
  | four (name : String) (axis : ℤ) (offset : PyFloat) (direction : ℤ)
deriving DecidableEq

/-- The attributes AbstractGridDim.__init__ stores for a given argument
tuple, with the defaults offset=0 and direction=1 filled in. -/
def DimArgs.fill : DimArgs → GridDim
  | .two n a => ⟨n, a, pf0, 1⟩
  | .three n a o => ⟨n, a, o, 1⟩
  | .four n a o d => ⟨n, a, o, d⟩

/-- The offset assertion of AbstractGridDim.__init__:
offset in (-0.5, 0, 0.5). -/
def validOffset (o : PyFloat) : Bool :=
  decide (o = pfNegHalf ∨ o = pf0 ∨ o = pfHalf)

/-- The assertions of AbstractGridDim.__init__: axis in (0, 1, 2) and
offset in (-0.5, 0, 0.5); the direction is not checked. -/
def validDim (d : GridDim) : Bool :=
  decide (d.axis = 0 ∨ d.axis = 1 ∨ d.axis = 2) && validOffset d.offset

/-- The global intern table DIM_INSTANCES, as the list of keys in insertion
order: the object interned for a key is identified by the position of the
key, and its attributes are DimArgs.fill of the key. -/
abbrev InternState := List DimArgs

/-- Position of the first occurrence of a key in the table (dict lookup). -/
def lookupIdx : List DimArgs → DimArgs → Option ℕ
  | [], _ => none
  | k :: ks, a => if k = a then some 0 else (lookupIdx ks a).map (· + 1)

/-- MetaDim.__call__: return the interned instance for the argument tuple,
creating a new one (and running the constructor assertions) only when the
key is absent; none models an assertion failure. -/
def mkDim (s : InternState) (a : DimArgs) : Option (InternState × ℕ) :=
  match lookupIdx s a with
  | some i => some (s, i)
  | none => if validDim a.fill then some (s ++ [a], s.length) else none

/-- Attributes of the interned object with identity i. -/
def attrsAt (s : InternState) (i : ℕ) : Option GridDim :=
  s[i]?.map DimArgs.fill

/-- AbstractGridDim.__add__: shift the offset by the addend; the direction
is not forwarded, so the result is interned under a three-argument key whose
filled-in direction is the default 1. -/
def addDim (s : InternState) (i : ℕ) (delta : PyFloat) : Option (InternState × ℕ) :=
  match attrsAt s i with
  | none => none
  | some d => mkDim s (.three d.name d.axis (d.offset.add delta))

/-- AbstractGridDim.__sub__: defined as self + (-other). -/
def subDim (s : InternState) (i : ℕ) (delta : PyFloat) : Option (InternState × ℕ) :=
  addDim s i delta.neg

/-- AbstractGridDim.__neg__: flip the direction, interning under an explicit
four-argument key. -/
def negDim (s : InternState) (i : ℕ) : Option (InternState × ℕ) :=
  match attrsAt s i with
  | none => none
  | some d => mkDim s (.four d.name d.axis d.offset (-d.direction))

/-- Well-formedness of the intern table: each key is interned at most once,
and every interned key passed the constructor assertions. Both hold in every
table reachable from the empty one by constructor calls. -/
def internWF (s : InternState) : Prop :=
  s.Nodup ∧ ∀ k ∈ s, validDim k.fill = true

instance (s : InternState) : Decidable (internWF s) := by
  unfold internWF; infer_instance

/-- Modelled from the spec: the domain configuration (class GridConfig of
ifs_physics_common.config, a module not shipped under src/) carries the
physical bounds and the number of points of each of the three axes, as read
by AbstractGridDim.concretize. -/
structure GridConfig where
  xmin : PyFloat
  xmax : PyFloat
  ymin : PyFloat
  ymax : PyFloat
  zmin : PyFloat
  zmax : PyFloat
  nx : ℕ
  ny : ℕ
  nz : ℕ
deriving DecidableEq

/-- A concretized dimension (class ConcreteGridDim of
ifs_physics_common.grid): the abstract symbol, the physical bounds and the
size computed by __init__ (domain_size + 1 on a staggered axis). -/
structure ConcreteGridDim where
  abstract_dim : GridDim
  bounds : PyFloat × PyFloat
  size : ℕ
deriving DecidableEq

/-- ConcreteGridDim.__init__. -/
def ConcreteGridDim.make (ad : GridDim) (bounds : PyFloat × PyFloat)
    (domain_size : ℕ) : ConcreteGridDim :=
  ⟨ad, bounds,
    if ad.offset = pfNegHalf ∨ ad.offset = pfHalf then domain_size + 1 else domain_size⟩

/-- ConcreteGridDim.padding: the direction on a cell-centered axis
(offset 0), no padding on a staggered axis. -/
def ConcreteGridDim.padding (cd : ConcreteGridDim) : ℤ :=
  if cd.abstract_dim.offset = pf0 then cd.abstract_dim.direction else 0

/-- AbstractGridDim.concretize: pick the bounds and size of the symbol's
axis; an unknown axis raises ValueError (none). -/
def GridDim.concretize (d : GridDim) (cfg : GridConfig) : Option ConcreteGridDim :=
  if d.axis = 0 then some (ConcreteGridDim.make d (cfg.xmin, cfg.xmax) cfg.nx)
  else if d.axis = 1 then some (ConcreteGridDim.make d (cfg.ymin, cfg.ymax) cfg.ny)
  else if d.axis = 2 then some (ConcreteGridDim.make d (cfg.zmin, cfg.zmax) cfg.nz)
  else none

/-- Class Grid of ifs_physics_common.grid, with the fields its __init__
derives by concretizing every abstract dimension against one shared domain
configuration (coords and spacing, which no claim touches, are omitted). -/
structure Grid where
  abstract_dims : List GridDim
  ndim : ℕ
  shape : List ℕ
  padding : List ℤ
deriving DecidableEq

/-- Grid.__init__: concretize each dimension and collect the parallel
tuples; fails (none) if some dimension has an unknown axis. -/
def Grid.make (dims : List GridDim) (cfg : GridConfig) : Option Grid :=
  (dims.mapM (GridDim.concretize · cfg)).map fun cds =>
    ⟨dims, dims.length, cds.map (·.size), cds.map ConcreteGridDim.padding⟩

/-- Grid.get_storage_shape: shape plus absolute padding, per axis. -/
def Grid.get_storage_shape (g : Grid) : List ℕ :=
  List.zipWith (fun s p => s + p.natAbs) g.shape g.padding

/-- Grid.get_storage_origin: max(-padding, 0) per axis. -/
def Grid.get_storage_origin (g : Grid) : List ℤ :=
  g.padding.map fun p => max (-p) 0

/-- Grid.get_storage_view_slice: slice(origin, origin + shape) per axis,
encoded as a (start, stop) pair. -/
def Grid.get_storage_view_slice (g : Grid) : List (ℤ × ℤ) :=
  List.zipWith (fun (o : ℤ) (s : ℕ) => (o, o + s)) g.get_storage_origin g.shape

/-- Attribute record of a dimension symbol of the legacy module
ifs_physics_common.framework.grid (class AbstractDim): only a name and an
offset, no axis and no direction. -/
structure AbstractDimF where
  name : String
  offset : PyFloat
deriving DecidableEq

/-- Modelled from the spec: the domain configuration (class DomainConfig of
ifs_physics_common.framework.config, a module not shipped under src/) with
the bounds and sizes read by AbstractDim.concretize. -/
structure DomainConfigF where
  xmin : PyFloat
  xmax : PyFloat
  ymin : PyFloat
  ymax : PyFloat
  zmin : PyFloat
  zmax : PyFloat
  nx : ℕ
  ny : ℕ
  nz : ℕ
deriving DecidableEq

/-- Class ConcreteDim of ifs_physics_common.framework.grid. -/
structure ConcreteDimF where
  abstract_dim : AbstractDimF
  bounds : PyFloat × PyFloat
  size : ℕ
deriving DecidableEq

/-- ConcreteDim.__init__ of the framework module. -/
def ConcreteDimF.make (ad : AbstractDimF) (bounds : PyFloat × PyFloat)
    (domain_size : ℕ) : ConcreteDimF :=
  ⟨ad, bounds,
    if ad.offset = pfNegHalf ∨ ad.offset = pfHalf then domain_size + 1 else domain_size⟩

/-- ConcreteDim.padding of the framework module: 1 on a staggered axis
(offset -0.5 or 0.5) and 0 otherwise. -/
def ConcreteDimF.padding (cd : ConcreteDimF) : ℤ :=
  if cd.abstract_dim.offset = pfNegHalf ∨ cd.abstract_dim.offset = pfHalf then 1 else 0

/-- AbstractDim.concretize of the framework module: dispatch on the name;
a name other than I, J, K falls off the if-chain and returns None. -/
def AbstractDimF.concretize (d : AbstractDimF) (cfg : DomainConfigF) :
    Option ConcreteDimF :=
  if d.name = "I" then some (ConcreteDimF.make d (cfg.xmin, cfg.xmax) cfg.nx)
  else if d.name = "J" then some (ConcreteDimF.make d (cfg.ymin, cfg.ymax) cfg.ny)
  else if d.name = "K" then some (ConcreteDimF.make d (cfg.zmin, cfg.zmax) cfg.nz)
  else none

/-- An N-dimensional numeric array: a shape and the value stored at each
multi-index (meaningful for in-bounds indices). -/
structure NDArray where
  shape : List ℕ
  val : List ℕ → PyFloat

/-- A DataArray as produced by get_data_array of ifs_physics_common.storage:
the padded backing buffer plus the view_shape and view_slice attributes
locating the logical region; the attributes span every axis of the buffer.
A slice(start, stop) is encoded as the pair (start, stop). -/
structure Field where
  data : NDArray
  view_shape : List ℕ
  view_slice : List (ℕ × ℕ)

/-- One component of the reps tuple of assign:
(view_size - 1) // buffer_size + 1 with Python floor division. -/
def repsOf (view_size buffer_size : ℕ) : ℤ :=
  ((view_size : ℤ) - 1).fdiv (buffer_size : ℤ) + 1

/-- The reps tuple of assign (zip truncates like Python zip). -/
def assignReps (view_shape bshape : List ℕ) : List ℤ :=
  List.zipWith repsOf view_shape bshape

/-- Shape of np.tile(buffer, reps) for same-rank reps. -/
def tiledShape (bshape : List ℕ) (reps : List ℤ) : List ℕ :=
  List.zipWith (fun b r => b * r.toNat) bshape reps

/-- Value of np.tile(buffer, reps) at a multi-index: the buffer value at the
index reduced modulo the buffer shape on every axis. -/
def tileVal (buf : NDArray) (idx : List ℕ) : PyFloat :=
  buf.val (List.zipWith (fun i s => i % s) idx buf.shape)

/-- Extent selected by slice(start, stop) on an axis of length n. -/
def sliceExtent (se : ℕ × ℕ) (n : ℕ) : ℕ :=
  min se.2 n - min se.1 n

/-- Whether a multi-index of the backing buffer lies in the sliced region
(axiswise start <= i < min(stop, n)); false on rank mismatch. -/
def inSlices : List (ℕ × ℕ) → List ℕ → List ℕ → Bool
  | [], [], [] => true
  | se :: sl, n :: sh, i :: ix =>
    decide (se.1 ≤ i) && decide (i < min se.2 n) && inSlices sl sh ix
  | _, _, _ => false

/-- Whether a multi-index of the backing buffer lies in the field's view. -/
def Field.inView (f : Field) (idx : List ℕ) : Bool :=
  inSlices f.view_slice f.data.shape idx

/-- The view-relative coordinates of a backing-buffer multi-index. -/
def Field.relIdx (f : Field) (idx : List ℕ) : List ℕ :=
  List.zipWith (fun i (se : ℕ × ℕ) => i - se.1) idx f.view_slice

/-- assign(field, buffer) of ifs_physics_common.storage: tile the source
over the view shape and copy it into the view region of field.data, leaving
the rest of the backing buffer untouched; none models a raised error.  The
guard is: the assert field.ndim == buffer.ndim; attributes spanning every
axis (as get_data_array guarantees); no zero-sized source axis (a zero
buffer_size raises ZeroDivisionError in reps); and the numpy requirement
that the sliced destination field.data[view_slice] and the sliced tiled
source buffer[buffer_slice] have equal shapes. -/
def assign (f : Field) (buffer : NDArray) : Option NDArray :=
  if f.data.shape.length = buffer.shape.length
      ∧ f.view_shape.length = f.data.shape.length
      ∧ f.view_slice.length = f.data.shape.length
      ∧ (∀ b ∈ buffer.shape, b ≠ 0)
      ∧ List.zipWith sliceExtent f.view_slice f.data.shape =
          List.zipWith min f.view_shape
            (tiledShape buffer.shape (assignReps f.view_shape buffer.shape)) then
    some ⟨f.data.shape, fun idx =>
      if f.inView idx then tileVal buffer (f.relIdx idx) else f.data.val idx⟩
  else none

/-- A key of TEMPORARY_STORAGE_POOL: the code uses
hash((grid.shape + grid_dims, dtype_name)); since an int never equals a
dimension symbol, the concatenated tuple is modelled by the pair of its two
typed parts, and hashing by the value itself (no collisions). -/
abbrev PoolKey := (List ℕ × List GridDim) × String

/-- The mutable process state the storage pool acts on: the pool buckets
(TEMPORARY_STORAGE_POOL) holding buffer identities, and the heap of all
buffers ever allocated; a buffer's identity is its index in the heap, its
content the stored flat list of values. -/
structure PoolState where
  pool : List (PoolKey × List ℕ)
  heap : List (List PyFloat)
deriving DecidableEq

/-- Bucket of a key; dict entries absent and present-but-empty behave
identically in the pool code, so a missing key reads as the empty bucket. -/
def getBucket : List (PoolKey × List ℕ) → PoolKey → List ℕ
  | [], _ => []
  | e :: es, k => if e.1 = k then e.2 else getBucket es k

/-- Write a bucket (insert the key if absent). -/
def setBucket : List (PoolKey × List ℕ) → PoolKey → List ℕ → List (PoolKey × List ℕ)
  | [], k, v => [(k, v)]
  | e :: es, k, v => if e.1 = k then (k, v) :: es else e :: setBucket es k v

/-- computational_grid.grids[grid_dims]: dict lookup keyed by the dimension
tuple; none models the KeyError on an unknown tuple. -/
def gridsLookup : List (List GridDim × Grid) → List GridDim → Option Grid
  | [], _ => none
  | e :: es, dims => if e.1 = dims then some e.2 else gridsLookup es dims

/-- Content of a fresh gt_zeros buffer for a grid (no data dims): a
zero-filled buffer of the grid's storage shape. -/
def gt_zeros (g : Grid) : List PyFloat :=
  List.replicate (g.get_storage_shape.foldl (· * ·) 1) pf0

/-- One iteration of the acquisition loop of managed_temporary_storage:
look the grid up, pop the last buffer of the key's bucket if the bucket is
non-empty, otherwise allocate a fresh zero-filled buffer. Returns the new
state and the (grid_hash, storage) pair recorded by the loop. -/
def acquireOne (cg : List (List GridDim × Grid)) (st : PoolState)
    (dims : List GridDim) (dt : String) : Option (PoolState × (PoolKey × ℕ)) :=
  match gridsLookup cg dims with
  | none => none
  | some g =>
    match (getBucket st.pool ((g.shape, dims), dt)).getLast? with
    | some s =>
      some (⟨setBucket st.pool ((g.shape, dims), dt)
          (getBucket st.pool ((g.shape, dims), dt)).dropLast, st.heap⟩,
        (((g.shape, dims), dt), s))
    | none =>
      some (⟨setBucket st.pool ((g.shape, dims), dt) [], st.heap ++ [gt_zeros g]⟩,
        (((g.shape, dims), dt), st.heap.length))

/-- The acquisition loop of managed_temporary_storage over all requested
(dim_tuple, dtype) pairs, in request order. -/
def acquireAll (cg : List (List GridDim × Grid)) :
    PoolState → List (List GridDim × String) → Option (PoolState × List (PoolKey × ℕ))
  | st, [] => some (st, [])
  | st, (dims, dt) :: rest =>
    match acquireOne cg st dims dt with
    | none => none
    | some (st1, pr) =>
      match acquireAll cg st1 rest with
      | none => none
      | some (st2, prs) => some (st2, pr :: prs)

/-- One iteration of the finally clause: append the storage to its key's
bucket. -/
def releaseOne (st : PoolState) (pr : PoolKey × ℕ) : PoolState :=
  ⟨setBucket st.pool pr.1 (getBucket st.pool pr.1 ++ [pr.2]), st.heap⟩

/-- The finally clause of managed_temporary_storage: push every acquired
storage back onto its bucket, in acquisition order. -/
def releaseAll (st : PoolState) (prs : List (PoolKey × ℕ)) : PoolState :=
  prs.foldl releaseOne st

/-- What the context manager yields: the single storage itself when exactly
one was requested, the list of storages otherwise. -/
inductive TempStorages where
  | one (b : ℕ)
  | many (bs : List ℕ)
deriving DecidableEq

/-- The yield of managed_temporary_storage for a list of storages. -/
def yieldedOf : List ℕ → TempStorages
  | [b] => .one b
  | bs => .many bs

/-- Outcome of the with-block body: normal completion or a raised
exception (identified by a code), which the context manager re-raises
after its finally clause. -/
inductive BodyRes (α : Type) where
  | ok (a : α)
  | exn (e : ℕ)
deriving DecidableEq

/-- managed_temporary_storage of ifs_physics_common.storage: acquire the
requested storages, run the body on the yielded storages (the body may read
and write buffer contents, i.e. the heap, and may finish normally or
raise), and in all cases push every acquired storage back onto its bucket;
the body's outcome propagates. -/
def managed_temporary_storage {α : Type} (cg : List (List GridDim × Grid))
    (st : PoolState) (args : List (List GridDim × String))
    (body : TempStorages → List (List PyFloat) → BodyRes α × List (List PyFloat)) :
    Option (BodyRes α × PoolState) :=
  match acquireAll cg st args with
  | none => none
  | some (st1, prs) =>
    let r := body (yieldedOf (prs.map (·.2))) st1.heap
    some (r.1, releaseAll ⟨st1.pool, r.2⟩ prs)

/-! Faithfulness of the dyadic float model: canonical representations are
unique per numeric value, and the operations compute the exact values. -/

theorem pyfloat_eq_of_cross {a b : PyFloat} (hle : a.exp ≤ b.exp)
    (h : a.mant * 2 ^ b.exp = b.mant * 2 ^ a.exp) : a = b := by
  obtain ⟨d, hd⟩ := Nat.exists_eq_add_of_le hle
  have h2 : a.mant * 2 ^ d = b.mant := by
    have h3 : a.mant * 2 ^ d * 2 ^ a.exp = b.mant * 2 ^ a.exp := by
      rw [← h, hd]
      ring
    exact mul_right_cancel₀ (by positivity) h3
  cases d with
  | zero =>
    have hm : a.mant = b.mant := by simpa using h2
    have he : a.exp = b.exp := by omega
    cases a
    cases b
    simp only at hm he
    subst hm
    subst he
    rfl
  | succ d =>
    exfalso
    rcases b.canon with hb | hb
    · apply hb
      rw [← h2, show a.mant * 2 ^ (d + 1) = 2 * (a.mant * 2 ^ d) by ring]
      exact Int.mul_emod_right 2 _
    · omega

/-- Structural equality of modelled floats coincides with equality of the
numeric values they denote, as it does for Python floats. -/
theorem PyFloat.eq_iff_val {a b : PyFloat} : a = b ↔ a.val = b.val := by
  constructor
  · rintro rfl
    rfl
  · intro h
    have hcross : a.mant * 2 ^ b.exp = b.mant * 2 ^ a.exp := by
      have h2 : (a.mant : ℚ) / 2 ^ a.exp = (b.mant : ℚ) / 2 ^ b.exp := h
      rw [div_eq_div_iff (by positivity) (by positivity)] at h2
      exact_mod_cast h2
    rcases le_total a.exp b.exp with hle | hle
    · exact pyfloat_eq_of_cross hle hcross
    · exact (pyfloat_eq_of_cross hle hcross.symm).symm

theorem canonize_val : ∀ (e : ℕ) (m : ℤ), (canonize m e).val = (m : ℚ) / 2 ^ e := by
  intro e
  induction e with
  | zero =>
    intro m
    simp [canonize, PyFloat.val]
  | succ e ih =>
    intro m
    unfold canonize
    by_cases h : m % 2 = 0
    · rw [dif_pos h, ih]
      have hm : (m : ℚ) = 2 * ((m / 2 : ℤ) : ℚ) := by
        have h2 : m = 2 * (m / 2) := by omega
        calc (m : ℚ) = ((2 * (m / 2) : ℤ) : ℚ) := by exact_mod_cast congrArg Int.cast h2
          _ = 2 * ((m / 2 : ℤ) : ℚ) := by push_cast; ring
      rw [hm]
      rw [pow_succ]
      field_simp
      ring
    · rw [dif_neg h]
      rfl

/-- Addition of modelled floats computes the exact sum of the values. -/
theorem PyFloat.add_val (a b : PyFloat) : (a.add b).val = a.val + b.val := by
  unfold PyFloat.add
  rw [canonize_val]
  unfold PyFloat.val
  push_cast
  rw [div_add_div _ _ (by positivity) (by positivity)]
  rw [pow_add]
  ring_nf

/-- Negation of modelled floats computes the exact negated value. -/
theorem PyFloat.neg_val (a : PyFloat) : a.neg.val = -a.val := by
  unfold PyFloat.neg PyFloat.val
  push_cast
  ring

/-! Helper lemmas about the intern table. -/

theorem lookupIdx_eq_none {l : List DimArgs} {a : DimArgs} :
    lookupIdx l a = none ↔ a ∉ l := by
  induction l with
  | nil => simp [lookupIdx]
  | cons k ks ih =>
    by_cases hk : k = a
    · subst hk; simp [lookupIdx]
    · rw [show lookupIdx (k :: ks) a = (lookupIdx ks a).map (· + 1) from by
        simp [lookupIdx, hk]]
      rw [Option.map_eq_none', ih]
      constructor
      · intro h hc
        rcases List.mem_cons.mp hc with rfl | hm
        · exact hk rfl
        · exact h hm
      · intro h hm
        exact h (List.mem_cons_of_mem _ hm)

theorem lookupIdx_getElem? {l : List DimArgs} {a : DimArgs} :
    ∀ {i : ℕ}, lookupIdx l a = some i → l[i]? = some a := by
  induction l with
  | nil => intro i h; simp [lookupIdx] at h
  | cons k ks ih =>
    intro i h
    by_cases hk : k = a
    · subst hk
      simp [lookupIdx] at h
      subst h
      simp
    · simp [lookupIdx, hk] at h
      obtain ⟨j, hj, rfl⟩ := h
      simpa using ih hj

theorem lookupIdx_append {l l2 : List DimArgs} {a : DimArgs} :
    ∀ {i : ℕ}, lookupIdx l a = some i → lookupIdx (l ++ l2) a = some i := by
  induction l with
  | nil => intro i h; simp [lookupIdx] at h
  | cons k ks ih =>
    intro i h
    by_cases hk : k = a
    · subst hk
      simp [lookupIdx] at h ⊢
      exact h
    · simp [lookupIdx, hk] at h ⊢
      obtain ⟨j, hj, rfl⟩ := h
      exact ⟨j, ih hj, rfl⟩

theorem lookupIdx_concat_self {l : List DimArgs} {a : DimArgs} (h : a ∉ l) :
    lookupIdx (l ++ [a]) a = some l.length := by
  induction l with
  | nil => simp [lookupIdx]
  | cons k ks ih =>
    have hk : k ≠ a := by rintro rfl; exact h (List.mem_cons_self _ _)
    have hm : a ∉ ks := fun hm => h (List.mem_cons_of_mem _ hm)
    simp [lookupIdx, hk, ih hm]

theorem lookupIdx_of_nodup {l : List DimArgs} :
    ∀ {j : ℕ} {a : DimArgs}, l.Nodup → l[j]? = some a → lookupIdx l a = some j := by
  induction l with
  | nil => intro j a _ h; simp at h
  | cons k ks ih =>
    intro j a hn h
    match j with
    | 0 =>
      simp at h
      subst h
      simp [lookupIdx]
    | j + 1 =>
      simp at h
      have hk : k ≠ a := by
        rintro rfl
        exact (List.nodup_cons.mp hn).1 (List.getElem?_mem h)
      simp [lookupIdx, hk, ih (List.nodup_cons.mp hn).2 h]

/-! Helper lemmas about MetaDim.__call__. -/

theorem mkDim_getElem? {s : InternState} {a : DimArgs} {s1 : InternState} {i : ℕ}
    (h : mkDim s a = some (s1, i)) : s1[i]? = some a := by
  unfold mkDim at h
  cases hl : lookupIdx s a with
  | some j =>
    rw [hl] at h
    cases h
    exact lookupIdx_getElem? hl
  | none =>
    rw [hl] at h
    by_cases hv : validDim a.fill = true
    · rw [if_pos hv] at h
      cases h
      exact List.getElem?_concat_length _ _
    · rw [if_neg hv] at h
      cases h

theorem mkDim_mono {s : InternState} {a : DimArgs} {s1 : InternState} {i : ℕ}
    (h : mkDim s a = some (s1, i)) {j : ℕ} {v : DimArgs}
    (hj : s[j]? = some v) : s1[j]? = some v := by
  unfold mkDim at h
  cases hl : lookupIdx s a with
  | some k =>
    rw [hl] at h
    cases h
    exact hj
  | none =>
    rw [hl] at h
    by_cases hv : validDim a.fill = true
    · rw [if_pos hv] at h
      cases h
      have hlen : j < s.length := (List.getElem?_eq_some.mp hj).1
      rw [List.getElem?_append_left hlen]
      exact hj
    · rw [if_neg hv] at h
      cases h

theorem mkDim_WF {s : InternState} {a : DimArgs} {s1 : InternState} {i : ℕ}
    (hWF : internWF s) (h : mkDim s a = some (s1, i)) : internWF s1 := by
  unfold mkDim at h
  cases hl : lookupIdx s a with
  | some k =>
    rw [hl] at h
    cases h
    exact hWF
  | none =>
    rw [hl] at h
    by_cases hv : validDim a.fill = true
    · rw [if_pos hv] at h
      cases h
      have hnm : a ∉ s := lookupIdx_eq_none.mp hl
      constructor
      · simp [List.nodup_append, hWF.1, hnm]
      · intro k hk
        rcases List.mem_append.mp hk with hk | hk
        · exact hWF.2 k hk
        · rcases List.mem_singleton.mp hk with rfl
          exact hv
    · rw [if_neg hv] at h
      cases h

theorem mkDim_succeeds {s : InternState} {a : DimArgs} (h : validDim a.fill = true) :
    ∃ s1 i, mkDim s a = some (s1, i) := by
  unfold mkDim
  cases hl : lookupIdx s a with
  | some j => exact ⟨s, j, rfl⟩
  | none => exact ⟨_, _, by rw [if_pos h]⟩

theorem mkDim_fails {s : InternState} {a : DimArgs} (hWF : internWF s)
    (h : validDim a.fill = false) : mkDim s a = none := by
  unfold mkDim
  cases hl : lookupIdx s a with
  | some j =>
    exfalso
    have := hWF.2 a (List.getElem?_mem (lookupIdx_getElem? hl))
    rw [this] at h
    cases h
  | none => rw [if_neg (by simp [h])]

theorem mkDim_of_getElem? {s : InternState} {j : ℕ} {a : DimArgs}
    (hn : s.Nodup) (h : s[j]? = some a) : mkDim s a = some (s, j) := by
  unfold mkDim
  rw [lookupIdx_of_nodup hn h]

theorem attrsAt_valid {s : InternState} {i : ℕ} {d : GridDim}
    (hWF : internWF s) (h : attrsAt s i = some d) : validDim d = true := by
  unfold attrsAt at h
  cases hk : s[i]? with
  | none => rw [hk] at h; cases h
  | some k =>
    rw [hk] at h
    cases h
    exact hWF.2 k (List.getElem?_mem hk)

/-- C2 (counterexample): two constructor calls whose (name, axis, offset,
direction) values are equal, one leaving offset and direction at their
defaults and one spelling them out, do not return the same object: the key
hash(args) depends on the arity of the call, so a second, value-equal but
distinct instance is created, and value equality does not coincide with
identity. -/
theorem mkDim_defaulted_args_distinct_instance :
    (DimArgs.two "I" 0).fill = (DimArgs.four "I" 0 pf0 1).fill ∧
    mkDim [] (.two "I" 0) = some ([.two "I" 0], 0) ∧
    mkDim [.two "I" 0] (.four "I" 0 pf0 1) = some ([.two "I" 0, .four "I" 0 pf0 1], 1) ∧
    (0 : ℕ) ≠ 1 := by decide

/-- C2 (amended): two construction calls with the same positional argument
tuple (the same spelling of defaults) return the very same interned
instance, and the second call does not modify the table. -/
theorem mkDim_same_args_same_instance {s s1 s2 : InternState} {a : DimArgs} {i1 i2 : ℕ}
    (h1 : mkDim s a = some (s1, i1)) (h2 : mkDim s1 a = some (s2, i2)) :
    s2 = s1 ∧ i2 = i1 := by
  unfold mkDim at h1 h2
  cases hl : lookupIdx s a with
  | some j =>
    rw [hl] at h1
    cases h1
    rw [hl] at h2
    cases h2
    exact ⟨rfl, rfl⟩
  | none =>
    rw [hl] at h1
    by_cases hv : validDim a.fill = true
    · rw [if_pos hv] at h1
      cases h1
      rw [lookupIdx_concat_self (lookupIdx_eq_none.mp hl)] at h2
      cases h2
      exact ⟨rfl, rfl⟩
    · rw [if_neg hv] at h1
      cases h1

/-- C2 (witness): the amended statement applied to two identical two-argument
calls interning the symbol I. -/
theorem mkDim_same_args_same_instance_witness :
    ([DimArgs.two "I" 0] : InternState) = [DimArgs.two "I" 0] ∧ (0 : ℕ) = 0 :=
  @mkDim_same_args_same_instance [] [DimArgs.two "I" 0] [DimArgs.two "I" 0]
    (DimArgs.two "I" 0) 0 0 (by decide) (by decide)

/-- C3 (counterexample): shifting does not preserve the direction of the
shifted symbol: __add__ constructs AbstractGridDim(name, axis, offset+other)
without forwarding direction, so shifting a direction -1 symbol by 0.5
returns a symbol with the default direction 1. -/
theorem addDim_resets_direction :
    mkDim [] (.four "I" 0 pf0 (-1)) = some ([.four "I" 0 pf0 (-1)], 0) ∧
    attrsAt [.four "I" 0 pf0 (-1)] 0 = some ⟨"I", 0, pf0, -1⟩ ∧
    addDim [.four "I" 0 pf0 (-1)] 0 pfHalf =
      some ([.four "I" 0 pf0 (-1), .three "I" 0 pfHalf], 1) ∧
    attrsAt [.four "I" 0 pf0 (-1), .three "I" 0 pfHalf] 1 = some ⟨"I", 0, pfHalf, 1⟩ ∧
    ((1 : ℤ) ≠ -1) := by decide

/-- C3 (amended): shifting an interned symbol by a float delta returns the
interned symbol with the same name and axis, offset shifted by delta, and
direction reset to the default 1; if the resulting offset lies outside
(-0.5, 0, 0.5) the shift fails the constructor assertion; and s - delta is
s + (-delta). -/
theorem addDim_shift_spec {s : InternState} {i : ℕ} {d : GridDim}
    (hWF : internWF s) (hd : attrsAt s i = some d) (delta : PyFloat) :
    (validOffset (d.offset.add delta) = false → addDim s i delta = none) ∧
    (validOffset (d.offset.add delta) = true →
      ∃ s1 j, addDim s i delta = some (s1, j) ∧
        attrsAt s1 j = some ⟨d.name, d.axis, d.offset.add delta, 1⟩) ∧
    subDim s i delta = addDim s i delta.neg := by
  have hvd : validDim d = true := attrsAt_valid hWF hd
  have haxis : decide (d.axis = 0 ∨ d.axis = 1 ∨ d.axis = 2) = true :=
    ((Bool.and_eq_true _ _).mp hvd).1
  refine ⟨?_, ?_, rfl⟩
  · intro hof
    unfold addDim
    rw [hd]
    apply mkDim_fails hWF
    show (decide (d.axis = 0 ∨ d.axis = 1 ∨ d.axis = 2) &&
      validOffset (d.offset.add delta)) = false
    rw [hof, Bool.and_false]
  · intro hof
    unfold addDim
    rw [hd]
    have hv : validDim (DimArgs.three d.name d.axis (d.offset.add delta)).fill = true := by
      show (decide (d.axis = 0 ∨ d.axis = 1 ∨ d.axis = 2) &&
        validOffset (d.offset.add delta)) = true
      rw [hof, haxis, Bool.and_true]
    obtain ⟨s1, j, hmk⟩ := mkDim_succeeds hv
    refine ⟨s1, j, hmk, ?_⟩
    unfold attrsAt
    rw [mkDim_getElem? hmk]
    rfl

/-- C3 (witness): the amended statement applied to the symbol K shifted by
-0.5, producing the interned half-level symbol K - 1/2. -/
theorem addDim_shift_spec_witness :
    (validOffset (PyFloat.add pf0 pfNegHalf) = false →
      addDim [DimArgs.two "K" 2] 0 pfNegHalf = none) ∧
    (validOffset (PyFloat.add pf0 pfNegHalf) = true →
      ∃ s1 j, addDim [DimArgs.two "K" 2] 0 pfNegHalf = some (s1, j) ∧
        attrsAt s1 j = some ⟨"K", 2, PyFloat.add pf0 pfNegHalf, 1⟩) ∧
    subDim [DimArgs.two "K" 2] 0 pfNegHalf = addDim [DimArgs.two "K" 2] 0 pfNegHalf.neg :=
  @addDim_shift_spec [DimArgs.two "K" 2] 0 ⟨"K", 2, pf0, 1⟩ (by decide) (by decide) pfNegHalf

/-- C8 (counterexample): negating twice is value-preserving but does not
return the same interned instance for a symbol constructed with defaulted
arguments: I is interned under the two-argument key, while negate always
interns under a four-argument key, so negate(negate(I)) is a fresh,
value-equal instance with a different identity. -/
theorem negDim_twice_fresh_instance :
    mkDim [] (.two "I" 0) = some ([.two "I" 0], 0) ∧
    negDim [.two "I" 0] 0 = some ([.two "I" 0, .four "I" 0 pf0 (-1)], 1) ∧
    negDim [.two "I" 0, .four "I" 0 pf0 (-1)] 1 =
      some ([.two "I" 0, .four "I" 0 pf0 (-1), .four "I" 0 pf0 1], 2) ∧
    attrsAt [.two "I" 0, .four "I" 0 pf0 (-1), .four "I" 0 pf0 1] 2 =
      attrsAt [.two "I" 0, .four "I" 0 pf0 (-1), .four "I" 0 pf0 1] 0 ∧
    (2 : ℕ) ≠ 0 := by decide

/-- C8 (amended): negating twice always returns a symbol value-equal to the
original (same name, axis, offset and direction); it returns the very same
interned instance whenever the original is the instance interned under its
explicit four-argument key (as every symbol produced by negation is). -/
theorem negDim_involution {s : InternState} {x : ℕ} {d : GridDim}
    (hWF : internWF s) (hd : attrsAt s x = some d) :
    ∃ s1 y s2 z, negDim s x = some (s1, y) ∧ negDim s1 y = some (s2, z) ∧
      attrsAt s2 z = some d ∧
      (s[x]? = some (.four d.name d.axis d.offset d.direction) → z = x) := by
  have hvd : validDim d = true := attrsAt_valid hWF hd
  have hfill1 : validDim (DimArgs.four d.name d.axis d.offset (-d.direction)).fill = true :=
    hvd
  obtain ⟨s1, y, h1⟩ := mkDim_succeeds (s := s) hfill1
  have hneg1 : negDim s x = some (s1, y) := by
    unfold negDim
    rw [hd]
    exact h1
  have hk1 := mkDim_getElem? h1
  have hattr1 : attrsAt s1 y = some ⟨d.name, d.axis, d.offset, -d.direction⟩ := by
    unfold attrsAt
    rw [hk1]
    rfl
  have hWF1 := mkDim_WF hWF h1
  have hfill2 :
      validDim (DimArgs.four d.name d.axis d.offset (-(-d.direction))).fill = true := hvd
  obtain ⟨s2, z, h2⟩ := mkDim_succeeds (s := s1) hfill2
  have hneg2 : negDim s1 y = some (s2, z) := by
    unfold negDim
    rw [hattr1]
    exact h2
  have hk2 := mkDim_getElem? h2
  have hattr2 : attrsAt s2 z = some d := by
    unfold attrsAt
    rw [hk2]
    simp [DimArgs.fill]
  refine ⟨s1, y, s2, z, hneg1, hneg2, hattr2, ?_⟩
  intro hx
  have hkey : DimArgs.four d.name d.axis d.offset (-(-d.direction)) =
      .four d.name d.axis d.offset d.direction := by rw [neg_neg]
  rw [hkey] at h2
  have h3 : mkDim s1 (.four d.name d.axis d.offset d.direction) = some (s1, x) :=
    mkDim_of_getElem? hWF1.1 (mkDim_mono h1 hx)
  rw [h3] at h2
  cases h2
  rfl

/-- C8 (witness): the amended statement applied to a symbol interned under
its explicit four-argument key, for which double negation returns the
identical instance. -/
theorem negDim_involution_witness :
    ∃ s1 y s2 z,
      negDim [DimArgs.four "J" 1 pf0 (-1)] 0 = some (s1, y) ∧
      negDim s1 y = some (s2, z) ∧
      attrsAt s2 z = some ⟨"J", 1, pf0, -1⟩ ∧
      (([DimArgs.four "J" 1 pf0 (-1)] : InternState)[(0 : ℕ)]? =
        some (.four "J" 1 pf0 (-1)) → z = 0) :=
  @negDim_involution [DimArgs.four "J" 1 pf0 (-1)] 0 ⟨"J", 1, pf0, -1⟩
    (by decide) (by decide)

/-- Any concretized dimension keeps the abstract symbol it was built from. -/
theorem concretize_abstract_dim {d : GridDim} {cfg : GridConfig} {cd : ConcreteGridDim}
    (h : d.concretize cfg = some cd) : cd.abstract_dim = d := by
  unfold GridDim.concretize at h
  split_ifs at h <;> (cases h; rfl)

/-- C1: for every grid built from a dimension tuple and a domain
configuration and every axis, storage_shape is shape plus absolute padding,
storage_origin is max(-padding, 0), and the view slice is the pair
(origin, origin + shape), which selects exactly shape contiguous indices and
lies inside [0, storage_shape) whichever side the padding falls on. -/
theorem grid_storage_laws {dims : List GridDim} {cfg : GridConfig} {g : Grid}
    {i sz : ℕ} {p : ℤ}
    (_hg : Grid.make dims cfg = some g)
    (hs : g.shape[i]? = some sz) (hp : g.padding[i]? = some p) :
    g.get_storage_shape[i]? = some (sz + p.natAbs) ∧
    g.get_storage_origin[i]? = some (max (-p) 0) ∧
    g.get_storage_view_slice[i]? = some (max (-p) 0, max (-p) 0 + sz) ∧
    (0 : ℤ) ≤ max (-p) 0 ∧ max (-p) 0 + (sz : ℤ) ≤ ((sz + p.natAbs : ℕ) : ℤ) := by
  have h1 : g.get_storage_shape[i]? = some (sz + p.natAbs) := by
    unfold Grid.get_storage_shape
    rw [List.getElem?_zipWith_eq_some]
    exact ⟨sz, p, hs, hp, rfl⟩
  have h2 : g.get_storage_origin[i]? = some (max (-p) 0) := by
    unfold Grid.get_storage_origin
    rw [List.getElem?_map, hp]
    rfl
  have h3 : g.get_storage_view_slice[i]? = some (max (-p) 0, max (-p) 0 + sz) := by
    unfold Grid.get_storage_view_slice
    rw [List.getElem?_zipWith_eq_some]
    exact ⟨max (-p) 0, sz, h2, hs, rfl⟩
  refine ⟨h1, h2, h3, le_max_right _ _, ?_⟩
  have hcast : ((sz + p.natAbs : ℕ) : ℤ) = (sz : ℤ) + p.natAbs := by push_cast; ring
  rw [hcast]
  rcases le_total (-p) 0 with h | h
  · rw [max_eq_right h]
    omega
  · rw [max_eq_left h]
    omega

/-- C1 (witness): the storage laws evaluated on the grid of the dimension
tuple (I, K - 1/2) over a 4 x 5 x 6 domain, on the padded axis of I. -/
theorem grid_storage_laws_witness :
    (Grid.mk [⟨"I", 0, pf0, 1⟩, ⟨"K", 2, pfNegHalf, 1⟩] 2 [4, 7]
        [1, 0]).get_storage_shape[0]? = some (4 + (1 : ℤ).natAbs) ∧
    (Grid.mk [⟨"I", 0, pf0, 1⟩, ⟨"K", 2, pfNegHalf, 1⟩] 2 [4, 7]
        [1, 0]).get_storage_origin[0]? = some (max (-(1 : ℤ)) 0) ∧
    (Grid.mk [⟨"I", 0, pf0, 1⟩, ⟨"K", 2, pfNegHalf, 1⟩] 2 [4, 7]
        [1, 0]).get_storage_view_slice[0]? =
      some (max (-(1 : ℤ)) 0, max (-(1 : ℤ)) 0 + 4) ∧
    (0 : ℤ) ≤ max (-(1 : ℤ)) 0 ∧
    max (-(1 : ℤ)) 0 + ((4 : ℕ) : ℤ) ≤ ((4 + (1 : ℤ).natAbs : ℕ) : ℤ) :=
  @grid_storage_laws [⟨"I", 0, pf0, 1⟩, ⟨"K", 2, pfNegHalf, 1⟩]
    ⟨pf0, pfOne, pf0, pfOne, pf0, pfOne, 4, 5, 6⟩
    (Grid.mk [⟨"I", 0, pf0, 1⟩, ⟨"K", 2, pfNegHalf, 1⟩] 2 [4, 7] [1, 0]) 0 4 1
    (by decide) (by decide) (by decide)

/-- C4 (counterexample): the padding rule of the claim fails on the
framework variant (ifs_physics_common.framework.grid): concretizing the
half-level symbol K - 1/2 yields ConcreteDim.padding 1, not 0. -/
theorem framework_padding_staggered :
    (AbstractDimF.concretize ⟨"K", pfNegHalf⟩
        ⟨pf0, pfOne, pf0, pfOne, pf0, pfOne, 4, 5, 6⟩).map ConcreteDimF.padding =
      some 1 ∧ ((1 : ℤ) ≠ 0) := by decide

/-- C4 (amended): for ConcreteGridDim of ifs_physics_common.grid the claim
holds: concretizing a symbol with offset 0 gives padding +1 for direction
+1 and -1 for direction -1, and a staggered symbol (offset -0.5 or 0.5)
gives padding 0. -/
theorem concretize_padding_rule {d : GridDim} {cfg : GridConfig} {cd : ConcreteGridDim}
    (h : d.concretize cfg = some cd) :
    (d.offset = pf0 ∧ d.direction = 1 → cd.padding = 1) ∧
    (d.offset = pf0 ∧ d.direction = -1 → cd.padding = -1) ∧
    ((d.offset = pfNegHalf ∨ d.offset = pfHalf) → cd.padding = 0) := by
  have had := concretize_abstract_dim h
  unfold ConcreteGridDim.padding
  rw [had]
  refine ⟨?_, ?_, ?_⟩
  · rintro ⟨h0, h1⟩
    rw [if_pos h0, h1]
  · rintro ⟨h0, h1⟩
    rw [if_pos h0, h1]
  · intro h0
    have hne : d.offset ≠ pf0 := by
      rcases h0 with h0 | h0 <;> (rw [h0]; decide)
    rw [if_neg hne]

/-- C4 (witness): the amended rule evaluated on the symbol K with direction
-1 (leading padding) concretized over a 4 x 5 x 6 domain. -/
theorem concretize_padding_rule_witness :
    (pf0 = pf0 ∧ (-1 : ℤ) = 1 →
      (ConcreteGridDim.mk ⟨"K", 2, pf0, -1⟩ (pf0, pfOne) 6).padding = 1) ∧
    (pf0 = pf0 ∧ (-1 : ℤ) = -1 →
      (ConcreteGridDim.mk ⟨"K", 2, pf0, -1⟩ (pf0, pfOne) 6).padding = -1) ∧
    ((pf0 = pfNegHalf ∨ pf0 = pfHalf) →
      (ConcreteGridDim.mk ⟨"K", 2, pf0, -1⟩ (pf0, pfOne) 6).padding = 0) :=
  @concretize_padding_rule ⟨"K", 2, pf0, -1⟩ ⟨pf0, pfOne, pf0, pfOne, pf0, pfOne, 4, 5, 6⟩
    (ConcreteGridDim.mk ⟨"K", 2, pf0, -1⟩ (pf0, pfOne) 6) (by decide)

/-! Helper lemmas about the temporary storage pool. -/

theorem getBucket_setBucket (p : List (PoolKey × List ℕ)) (k : PoolKey) (v : List ℕ) :
    getBucket (setBucket p k v) k = v := by
  induction p with
  | nil => simp [setBucket, getBucket]
  | cons e es ih =>
    by_cases he : e.1 = k
    · simp [setBucket, he, getBucket]
    · simp [setBucket, he, getBucket, ih]

theorem acquireOne_key {cg : List (List GridDim × Grid)} {st st1 : PoolState}
    {dims : List GridDim} {dt : String} {k : PoolKey} {b : ℕ}
    (h : acquireOne cg st dims dt = some (st1, (k, b))) :
    ∃ g, gridsLookup cg dims = some g ∧ k = ((g.shape, dims), dt) := by
  unfold acquireOne at h
  split at h
  · cases h
  · rename_i g hg
    split at h
    · cases h
      exact ⟨g, hg, rfl⟩
    · cases h
      exact ⟨g, hg, rfl⟩

theorem acquireAll_single {cg : List (List GridDim × Grid)} {st st1 : PoolState}
    {dims : List GridDim} {dt : String} {pr : PoolKey × ℕ}
    (h : acquireOne cg st dims dt = some (st1, pr)) :
    acquireAll cg st [(dims, dt)] = some (st1, [pr]) := by
  unfold acquireAll
  rw [h]
  rfl

theorem managed_single_run {α : Type} {cg : List (List GridDim × Grid)}
    {st st1 : PoolState} {dims : List GridDim} {dt : String} {k : PoolKey} {b : ℕ}
    {body : TempStorages → List (List PyFloat) → BodyRes α × List (List PyFloat)}
    {res : BodyRes α} {h2 : List (List PyFloat)}
    (ha : acquireOne cg st dims dt = some (st1, (k, b)))
    (hb : body (.one b) st1.heap = (res, h2)) :
    managed_temporary_storage cg st [(dims, dt)] body =
      some (res, ⟨setBucket st1.pool k (getBucket st1.pool k ++ [b]), h2⟩) := by
  unfold managed_temporary_storage
  rw [acquireAll_single ha]
  show some ((body (yieldedOf [b]) st1.heap).1,
    releaseAll ⟨st1.pool, (body (yieldedOf [b]) st1.heap).2⟩ [(k, b)]) = _
  rw [show yieldedOf [b] = .one b from rfl, hb]
  rfl

theorem reacquire_after_release {cg : List (List GridDim × Grid)} {st st1 : PoolState}
    {dims : List GridDim} {dt : String} {k : PoolKey} {b : ℕ}
    (ha : acquireOne cg st dims dt = some (st1, (k, b)))
    (h2 : List (List PyFloat)) :
    acquireOne cg ⟨setBucket st1.pool k (getBucket st1.pool k ++ [b]), h2⟩ dims dt =
      some (⟨setBucket (setBucket st1.pool k (getBucket st1.pool k ++ [b])) k
          (getBucket st1.pool k), h2⟩, (k, b)) := by
  obtain ⟨g, hg, hk⟩ := acquireOne_key ha
  subst hk
  simp only [acquireOne, hg]
  rw [getBucket_setBucket]
  rw [show (getBucket st1.pool ((g.shape, dims), dt) ++ [b]).getLast? = some b by simp]
  simp

theorem acquireAll_length {cg : List (List GridDim × Grid)} :
    ∀ {args : List (List GridDim × String)} {st st1 : PoolState}
      {prs : List (PoolKey × ℕ)},
      acquireAll cg st args = some (st1, prs) → prs.length = args.length := by
  intro args
  induction args with
  | nil =>
    intro st st1 prs h
    unfold acquireAll at h
    cases h
    rfl
  | cons a rest ih =>
    intro st st1 prs h
    unfold acquireAll at h
    split at h
    · cases h
    · split at h
      · cases h
      · rename_i hrest
        cases h
        simp [ih hrest]

theorem getBucket_setBucket_ne (p : List (PoolKey × List ℕ)) {k k2 : PoolKey}
    (hne : k ≠ k2) (v : List ℕ) :
    getBucket (setBucket p k v) k2 = getBucket p k2 := by
  induction p with
  | nil => simp [setBucket, getBucket, hne]
  | cons e es ih =>
    by_cases he : e.1 = k
    · have he2 : e.1 ≠ k2 := by rw [he]; exact hne
      simp [setBucket, he, getBucket, hne, he2]
    · by_cases h2 : e.1 = k2
      · simp [setBucket, he, getBucket, h2, Ne.symm hne]
      · simp [setBucket, he, getBucket, h2, ih]

theorem releaseAll_heap : ∀ (prs : List (PoolKey × ℕ)) (st : PoolState),
    (releaseAll st prs).heap = st.heap := by
  intro prs
  induction prs with
  | nil =>
    intro st
    rfl
  | cons pr rest ih =>
    intro st
    show (releaseAll (releaseOne st pr) rest).heap = st.heap
    rw [ih]
    rfl

theorem releaseAll_bucket : ∀ (prs : List (PoolKey × ℕ)) (st : PoolState) (k : PoolKey),
    getBucket (releaseAll st prs).pool k =
      getBucket st.pool k ++ (prs.filter fun pr => decide (pr.1 = k)).map Prod.snd := by
  intro prs
  induction prs with
  | nil =>
    intro st k
    simp [releaseAll]
  | cons pr rest ih =>
    intro st k
    by_cases hk : pr.1 = k
    · subst hk
      show getBucket (releaseAll (releaseOne st pr) rest).pool pr.1 = _
      rw [ih]
      rw [show (releaseOne st pr).pool =
        setBucket st.pool pr.1 (getBucket st.pool pr.1 ++ [pr.2]) from rfl]
      rw [getBucket_setBucket]
      rw [List.filter_cons_of_pos (by simp), List.map_cons, List.append_assoc]
      rfl
    · show getBucket (releaseAll (releaseOne st pr) rest).pool k = _
      rw [ih]
      rw [show (releaseOne st pr).pool =
        setBucket st.pool pr.1 (getBucket st.pool pr.1 ++ [pr.2]) from rfl]
      rw [getBucket_setBucket_ne _ hk _]
      rw [List.filter_cons_of_neg (by simp [hk])]

theorem acquireOne_pops {cg : List (List GridDim × Grid)} {st : PoolState}
    {dims : List GridDim} {dt : String} {g : Grid} {bs : List ℕ} {b : ℕ}
    (hg : gridsLookup cg dims = some g)
    (hb : getBucket st.pool ((g.shape, dims), dt) = bs ++ [b]) :
    acquireOne cg st dims dt =
      some (⟨setBucket st.pool ((g.shape, dims), dt) bs, st.heap⟩,
        (((g.shape, dims), dt), b)) := by
  simp only [acquireOne, hg]
  rw [hb]
  rw [show (bs ++ [b]).getLast? = some b by simp]
  simp

/-- C5: acquiring a temporary storage for a (dim_tuple, dtype) request,
letting the scope exit (which releases the buffer to its pool bucket), and
acquiring again for the same key returns the very same buffer (it is popped
back off the bucket), with no new allocation: the heap is untouched and the
bucket returns to its pre-release content. -/
theorem pool_reacquire_same_buffer {α : Type} {cg : List (List GridDim × Grid)}
    {st st1 : PoolState} {dims : List GridDim} {dt : String} {k : PoolKey} {b : ℕ}
    {body : TempStorages → List (List PyFloat) → BodyRes α × List (List PyFloat)}
    {res : BodyRes α} {h2 : List (List PyFloat)}
    (ha : acquireOne cg st dims dt = some (st1, (k, b)))
    (hb : body (.one b) st1.heap = (res, h2)) :
    managed_temporary_storage cg st [(dims, dt)] body =
      some (res, ⟨setBucket st1.pool k (getBucket st1.pool k ++ [b]), h2⟩) ∧
    ∃ st3, acquireOne cg ⟨setBucket st1.pool k (getBucket st1.pool k ++ [b]), h2⟩ dims dt =
        some (st3, (k, b)) ∧
      st3.heap = h2 ∧ getBucket st3.pool k = getBucket st1.pool k := by
  refine ⟨managed_single_run ha hb, ?_⟩
  refine ⟨_, reacquire_after_release ha h2, rfl, ?_⟩
  exact getBucket_setBucket _ _ _

/-- C5 (witness): a fresh zero-filled buffer (identity 0) acquired on the
vertical-column grid, released by scope exit, is returned again by the next
acquisition, with the heap unchanged. -/
theorem pool_reacquire_same_buffer_witness :
    managed_temporary_storage [([⟨"K", 2, pf0, 1⟩], Grid.mk [⟨"K", 2, pf0, 1⟩] 1 [6] [1])]
        ⟨[], []⟩ [([⟨"K", 2, pf0, 1⟩], "float")] (fun _ h => (BodyRes.ok (0 : ℕ), h)) =
      some (BodyRes.ok 0,
        ⟨setBucket [((([6], [⟨"K", 2, pf0, 1⟩]), "float"), [])]
            (([6], [⟨"K", 2, pf0, 1⟩]), "float")
            (getBucket [((([6], [⟨"K", 2, pf0, 1⟩]), "float"), [])]
              (([6], [⟨"K", 2, pf0, 1⟩]), "float") ++ [0]),
          [List.replicate 7 pf0]⟩) ∧
    ∃ st3,
      acquireOne [([⟨"K", 2, pf0, 1⟩], Grid.mk [⟨"K", 2, pf0, 1⟩] 1 [6] [1])]
          ⟨setBucket [((([6], [⟨"K", 2, pf0, 1⟩]), "float"), [])]
              (([6], [⟨"K", 2, pf0, 1⟩]), "float")
              (getBucket [((([6], [⟨"K", 2, pf0, 1⟩]), "float"), [])]
                (([6], [⟨"K", 2, pf0, 1⟩]), "float") ++ [0]),
            [List.replicate 7 pf0]⟩ [⟨"K", 2, pf0, 1⟩] "float" =
        some (st3, ((([6], [⟨"K", 2, pf0, 1⟩]), "float"), 0)) ∧
      st3.heap = [List.replicate 7 pf0] ∧
      getBucket st3.pool (([6], [⟨"K", 2, pf0, 1⟩]), "float") =
        getBucket [((([6], [⟨"K", 2, pf0, 1⟩]), "float"), [])]
          (([6], [⟨"K", 2, pf0, 1⟩]), "float") :=
  @pool_reacquire_same_buffer ℕ
    [([⟨"K", 2, pf0, 1⟩], Grid.mk [⟨"K", 2, pf0, 1⟩] 1 [6] [1])]
    ⟨[], []⟩ ⟨[((([6], [⟨"K", 2, pf0, 1⟩]), "float"), [])], [List.replicate 7 pf0]⟩
    [⟨"K", 2, pf0, 1⟩] "float" ((([6], [⟨"K", 2, pf0, 1⟩]), "float")) 0
    (fun _ h => (BodyRes.ok 0, h)) (BodyRes.ok 0) [List.replicate 7 pf0]
    (by decide) rfl

/-- C6: for every scoped acquisition, with any number of requested
(dim_tuple, dtype) pairs and any body outcome (normal completion or a
raised exception: res is universally quantified over both), on scope exit
every acquired buffer is pushed back onto the bucket of its key, appended
in acquisition order after the bucket's previous content; the heap is
exactly what the body left (buffers are never re-zeroed); and a subsequent
acquisition of any key pops the last buffer of its bucket with exactly
those contents, so the next acquirer observes whatever values the previous
holder left. -/
theorem pool_release_preserves_contents {α : Type} {cg : List (List GridDim × Grid)}
    {st st1 : PoolState} {args : List (List GridDim × String)}
    {prs : List (PoolKey × ℕ)}
    {body : TempStorages → List (List PyFloat) → BodyRes α × List (List PyFloat)}
    {res : BodyRes α} {h2 : List (List PyFloat)}
    (ha : acquireAll cg st args = some (st1, prs))
    (hb : body (yieldedOf (prs.map Prod.snd)) st1.heap = (res, h2)) :
    managed_temporary_storage cg st args body =
      some (res, releaseAll ⟨st1.pool, h2⟩ prs) ∧
    (releaseAll ⟨st1.pool, h2⟩ prs).heap = h2 ∧
    (∀ k, getBucket (releaseAll ⟨st1.pool, h2⟩ prs).pool k =
      getBucket st1.pool k ++ (prs.filter fun pr => decide (pr.1 = k)).map Prod.snd) ∧
    (∀ pr ∈ prs, pr.2 ∈ getBucket (releaseAll ⟨st1.pool, h2⟩ prs).pool pr.1) ∧
    (∀ dims dt g bs b, gridsLookup cg dims = some g →
      getBucket (releaseAll ⟨st1.pool, h2⟩ prs).pool ((g.shape, dims), dt) = bs ++ [b] →
      acquireOne cg (releaseAll ⟨st1.pool, h2⟩ prs) dims dt =
        some (⟨setBucket (releaseAll ⟨st1.pool, h2⟩ prs).pool ((g.shape, dims), dt) bs,
          h2⟩, (((g.shape, dims), dt), b))) := by
  refine ⟨?_, releaseAll_heap prs _, fun k => releaseAll_bucket prs _ k, ?_, ?_⟩
  · unfold managed_temporary_storage
    rw [ha]
    show some ((body (yieldedOf (prs.map Prod.snd)) st1.heap).1,
      releaseAll ⟨st1.pool, (body (yieldedOf (prs.map Prod.snd)) st1.heap).2⟩ prs) = _
    rw [hb]
  · intro pr hpr
    rw [releaseAll_bucket prs _ pr.1]
    refine List.mem_append_right _ ?_
    exact List.mem_map_of_mem Prod.snd (List.mem_filter.mpr ⟨hpr, by simp⟩)
  · intro dims dt g bs b hg hbkt
    have hpop := acquireOne_pops hg hbkt
    rw [releaseAll_heap prs _] at hpop
    exact hpop

/-- C6 (witness): a scope acquiring two buffers (identities 0 and 1, for a
float and an int request on the same grid) whose body overwrites the heap
with ones and halves and then raises (exception code 7): both buffers are
released onto their buckets with the written heap, and subsequent
acquisitions pop them back with those contents. -/
theorem pool_release_preserves_contents_witness :
    managed_temporary_storage [([⟨"K", 2, pf0, 1⟩], Grid.mk [⟨"K", 2, pf0, 1⟩] 1 [6] [1])]
        ⟨[], []⟩ [([⟨"K", 2, pf0, 1⟩], "float"), ([⟨"K", 2, pf0, 1⟩], "int")]
        (fun _ _ => ((BodyRes.exn 7 : BodyRes ℕ),
          [List.replicate 7 pfOne, List.replicate 7 pfHalf])) =
      some (BodyRes.exn 7,
        releaseAll ⟨[((([6], [⟨"K", 2, pf0, 1⟩]), "float"), []),
            ((([6], [⟨"K", 2, pf0, 1⟩]), "int"), [])],
          [List.replicate 7 pfOne, List.replicate 7 pfHalf]⟩
          [((([6], [⟨"K", 2, pf0, 1⟩]), "float"), 0),
            ((([6], [⟨"K", 2, pf0, 1⟩]), "int"), 1)]) ∧
    (releaseAll ⟨[((([6], [⟨"K", 2, pf0, 1⟩]), "float"), []),
        ((([6], [⟨"K", 2, pf0, 1⟩]), "int"), [])],
      [List.replicate 7 pfOne, List.replicate 7 pfHalf]⟩
      [((([6], [⟨"K", 2, pf0, 1⟩]), "float"), 0),
        ((([6], [⟨"K", 2, pf0, 1⟩]), "int"), 1)]).heap =
      [List.replicate 7 pfOne, List.replicate 7 pfHalf] ∧
    (∀ k, getBucket (releaseAll ⟨[((([6], [⟨"K", 2, pf0, 1⟩]), "float"), []),
          ((([6], [⟨"K", 2, pf0, 1⟩]), "int"), [])],
        [List.replicate 7 pfOne, List.replicate 7 pfHalf]⟩
        [((([6], [⟨"K", 2, pf0, 1⟩]), "float"), 0),
          ((([6], [⟨"K", 2, pf0, 1⟩]), "int"), 1)]).pool k =
      getBucket [((([6], [⟨"K", 2, pf0, 1⟩]), "float"), []),
          ((([6], [⟨"K", 2, pf0, 1⟩]), "int"), [])] k ++
        (([((([6], [⟨"K", 2, pf0, 1⟩]), "float"), 0),
            ((([6], [⟨"K", 2, pf0, 1⟩]), "int"), 1)] : List (PoolKey × ℕ)).filter
          fun pr => decide (pr.1 = k)).map Prod.snd) ∧
    (∀ pr ∈ ([((([6], [⟨"K", 2, pf0, 1⟩]), "float"), 0),
        ((([6], [⟨"K", 2, pf0, 1⟩]), "int"), 1)] : List (PoolKey × ℕ)),
      pr.2 ∈ getBucket (releaseAll ⟨[((([6], [⟨"K", 2, pf0, 1⟩]), "float"), []),
            ((([6], [⟨"K", 2, pf0, 1⟩]), "int"), [])],
          [List.replicate 7 pfOne, List.replicate 7 pfHalf]⟩
          [((([6], [⟨"K", 2, pf0, 1⟩]), "float"), 0),
            ((([6], [⟨"K", 2, pf0, 1⟩]), "int"), 1)]).pool pr.1) ∧
    (∀ dims dt g bs b,
      gridsLookup [([⟨"K", 2, pf0, 1⟩], Grid.mk [⟨"K", 2, pf0, 1⟩] 1 [6] [1])] dims =
        some g →
      getBucket (releaseAll ⟨[((([6], [⟨"K", 2, pf0, 1⟩]), "float"), []),
            ((([6], [⟨"K", 2, pf0, 1⟩]), "int"), [])],
          [List.replicate 7 pfOne, List.replicate 7 pfHalf]⟩
          [((([6], [⟨"K", 2, pf0, 1⟩]), "float"), 0),
            ((([6], [⟨"K", 2, pf0, 1⟩]), "int"), 1)]).pool ((g.shape, dims), dt) =
        bs ++ [b] →
      acquireOne [([⟨"K", 2, pf0, 1⟩], Grid.mk [⟨"K", 2, pf0, 1⟩] 1 [6] [1])]
          (releaseAll ⟨[((([6], [⟨"K", 2, pf0, 1⟩]), "float"), []),
              ((([6], [⟨"K", 2, pf0, 1⟩]), "int"), [])],
            [List.replicate 7 pfOne, List.replicate 7 pfHalf]⟩
            [((([6], [⟨"K", 2, pf0, 1⟩]), "float"), 0),
              ((([6], [⟨"K", 2, pf0, 1⟩]), "int"), 1)]) dims dt =
        some (⟨setBucket (releaseAll ⟨[((([6], [⟨"K", 2, pf0, 1⟩]), "float"), []),
              ((([6], [⟨"K", 2, pf0, 1⟩]), "int"), [])],
            [List.replicate 7 pfOne, List.replicate 7 pfHalf]⟩
            [((([6], [⟨"K", 2, pf0, 1⟩]), "float"), 0),
              ((([6], [⟨"K", 2, pf0, 1⟩]), "int"), 1)]).pool ((g.shape, dims), dt) bs,
          [List.replicate 7 pfOne, List.replicate 7 pfHalf]⟩,
          (((g.shape, dims), dt), b))) :=
  @pool_release_preserves_contents ℕ
    [([⟨"K", 2, pf0, 1⟩], Grid.mk [⟨"K", 2, pf0, 1⟩] 1 [6] [1])]
    ⟨[], []⟩
    ⟨[((([6], [⟨"K", 2, pf0, 1⟩]), "float"), []), ((([6], [⟨"K", 2, pf0, 1⟩]), "int"), [])],
      [List.replicate 7 pf0, List.replicate 7 pf0]⟩
    [([⟨"K", 2, pf0, 1⟩], "float"), ([⟨"K", 2, pf0, 1⟩], "int")]
    [((([6], [⟨"K", 2, pf0, 1⟩]), "float"), 0), ((([6], [⟨"K", 2, pf0, 1⟩]), "int"), 1)]
    (fun _ _ => (BodyRes.exn 7, [List.replicate 7 pfOne, List.replicate 7 pfHalf]))
    (BodyRes.exn 7) [List.replicate 7 pfOne, List.replicate 7 pfHalf]
    (by decide) rfl

/-- C10: the context manager yields the single buffer itself when exactly
one (dim_tuple, dtype) pair is requested, and the list of the acquired
buffers in request order when two or more are requested. -/
theorem managed_yield_shape {α : Type} {cg : List (List GridDim × Grid)}
    {st st1 : PoolState} {args : List (List GridDim × String)}
    {prs : List (PoolKey × ℕ)}
    {body : TempStorages → List (List PyFloat) → BodyRes α × List (List PyFloat)}
    (h : acquireAll cg st args = some (st1, prs)) :
    prs.length = args.length ∧
    managed_temporary_storage cg st args body =
      some ((body (yieldedOf (prs.map Prod.snd)) st1.heap).1,
        releaseAll ⟨st1.pool, (body (yieldedOf (prs.map Prod.snd)) st1.heap).2⟩ prs) ∧
    (∀ b, prs.map Prod.snd = [b] → yieldedOf (prs.map Prod.snd) = .one b) ∧
    (2 ≤ prs.length → yieldedOf (prs.map Prod.snd) = .many (prs.map Prod.snd)) := by
  refine ⟨acquireAll_length h, ?_, ?_, ?_⟩
  · unfold managed_temporary_storage
    rw [h]
  · intro b hb
    rw [hb]
    rfl
  · intro hlen
    cases prs with
    | nil => cases hlen
    | cons p1 rest =>
      cases rest with
      | nil => simp at hlen
      | cons p2 t => rfl

/-- C10 (witness): requesting two pairs on the same grid yields the list of
the two acquired buffers (identities 0 and 1) in request order; the
single-pair and at-least-two clauses evaluated on that request. -/
theorem managed_yield_shape_witness :
    ([((([6], [⟨"K", 2, pf0, 1⟩]), "float"), 0),
        ((([6], [⟨"K", 2, pf0, 1⟩]), "int"), 1)] : List (PoolKey × ℕ)).length =
      ([([⟨"K", 2, pf0, 1⟩], "float"), ([⟨"K", 2, pf0, 1⟩], "int")] :
        List (List GridDim × String)).length ∧
    managed_temporary_storage [([⟨"K", 2, pf0, 1⟩], Grid.mk [⟨"K", 2, pf0, 1⟩] 1 [6] [1])]
        ⟨[], []⟩ [([⟨"K", 2, pf0, 1⟩], "float"), ([⟨"K", 2, pf0, 1⟩], "int")]
        (fun y h => (BodyRes.ok y, h)) =
      some (BodyRes.ok (yieldedOf [0, 1]),
        releaseAll ⟨[((([6], [⟨"K", 2, pf0, 1⟩]), "float"), []),
            ((([6], [⟨"K", 2, pf0, 1⟩]), "int"), [])],
            [List.replicate 7 pf0, List.replicate 7 pf0]⟩
          [((([6], [⟨"K", 2, pf0, 1⟩]), "float"), 0),
            ((([6], [⟨"K", 2, pf0, 1⟩]), "int"), 1)]) ∧
    (∀ b, ([0, 1] : List ℕ) = [b] → yieldedOf [0, 1] = .one b) ∧
    (2 ≤ ([((([6], [⟨"K", 2, pf0, 1⟩]), "float"), 0),
        ((([6], [⟨"K", 2, pf0, 1⟩]), "int"), 1)] : List (PoolKey × ℕ)).length →
      yieldedOf [0, 1] = .many [0, 1]) :=
  @managed_yield_shape TempStorages
    [([⟨"K", 2, pf0, 1⟩], Grid.mk [⟨"K", 2, pf0, 1⟩] 1 [6] [1])]
    ⟨[], []⟩
    ⟨[((([6], [⟨"K", 2, pf0, 1⟩]), "float"), []), ((([6], [⟨"K", 2, pf0, 1⟩]), "int"), [])],
      [List.replicate 7 pf0, List.replicate 7 pf0]⟩
    [([⟨"K", 2, pf0, 1⟩], "float"), ([⟨"K", 2, pf0, 1⟩], "int")]
    [((([6], [⟨"K", 2, pf0, 1⟩]), "float"), 0), ((([6], [⟨"K", 2, pf0, 1⟩]), "int"), 1)]
    (fun y h => (BodyRes.ok y, h)) (by decide)

/-! Helper lemmas about assign. -/

theorem repsOf_covers {v b : ℕ} (hb : 0 < b) : v ≤ b * (repsOf v b).toNat := by
  rcases Nat.eq_zero_or_pos v with rfl | hv
  · exact Nat.zero_le _
  · unfold repsOf
    have h1 : ((v : ℤ) - 1) = ((v - 1 : ℕ) : ℤ) := by omega
    have h2 : ((v - 1 : ℕ) : ℤ).fdiv (b : ℤ) = (((v - 1) / b : ℕ) : ℤ) := by
      cases hh : v - 1 with
      | zero => simp [Int.fdiv]
      | succ m => rfl
    rw [h1, h2]
    have h4 := Nat.div_add_mod (v - 1) b
    have h5 : (v - 1) % b < b := Nat.mod_lt _ hb
    generalize hq : (v - 1) / b = q at *
    generalize hr : (v - 1) % b = r at *
    have h3 : ((q : ℤ) + 1).toNat = q + 1 := by omega
    rw [h3]
    have h6 : b * (q + 1) = b * q + b := by ring
    generalize hbq : b * q = m at *
    omega

theorem repsOf_eq_one {v b : ℕ} (hv : 0 < v) (hle : v ≤ b) : repsOf v b = 1 := by
  unfold repsOf
  have h1 : ((v : ℤ) - 1) = ((v - 1 : ℕ) : ℤ) := by omega
  have h2 : ((v - 1 : ℕ) : ℤ).fdiv (b : ℤ) = (((v - 1) / b : ℕ) : ℤ) := by
    cases hh : v - 1 with
    | zero => simp [Int.fdiv]
    | succ m => rfl
  rw [h1, h2, Nat.div_eq_of_lt (by omega)]
  simp

theorem min_tiled_eq : ∀ (vs bs : List ℕ), vs.length = bs.length →
    (∀ b ∈ bs, 0 < b) →
    List.zipWith min vs (tiledShape bs (assignReps vs bs)) = vs := by
  intro vs
  induction vs with
  | nil =>
    intro bs _ _
    simp [tiledShape, assignReps]
  | cons v vs ih =>
    intro bs hlen hpos
    cases bs with
    | nil => simp at hlen
    | cons b bs =>
      simp only [assignReps, tiledShape, List.zipWith_cons_cons]
      congr 1
      · exact Nat.min_eq_left (repsOf_covers (hpos b (List.mem_cons_self b bs)))
      · exact ih bs (by simpa using hlen) fun x hx => hpos x (List.mem_cons_of_mem _ hx)

theorem inSlices_getElem? : ∀ {sl : List (ℕ × ℕ)} {sh ix : List ℕ},
    inSlices sl sh ix = true → ∀ {a : ℕ} {sa : ℕ × ℕ} {n i : ℕ},
    sl[a]? = some sa → sh[a]? = some n → ix[a]? = some i →
    sa.1 ≤ i ∧ i < min sa.2 n := by
  intro sl
  induction sl with
  | nil =>
    intro sh ix h a sa n i hsa hn hi
    simp at hsa
  | cons se sl ih =>
    intro sh ix h a sa n i hsa hn hi
    cases sh with
    | nil => simp [inSlices] at h
    | cons n0 sh =>
      cases ix with
      | nil => simp [inSlices] at h
      | cons i0 ix =>
        simp only [inSlices, Bool.and_eq_true, decide_eq_true_eq] at h
        match a with
        | 0 =>
          simp only [List.getElem?_cons_zero, Option.some_inj] at hsa hn hi
          subst hsa
          subst hn
          subst hi
          exact ⟨h.1.1, h.1.2⟩
        | a + 1 =>
          simp only [List.getElem?_cons_succ] at hsa hn hi
          exact ih h.2 hsa hn hi

/-- The success case of assign and what it writes: under the rank assertion,
attributes spanning all axes, positive source sizes and a view slice whose
extents match view_shape, assign succeeds and produces a buffer equal to the
tiled source on the view region and to the old backing buffer elsewhere. -/
theorem assign_some_spec {f : Field} {buffer : NDArray}
    (hrank : f.data.shape.length = buffer.shape.length)
    (hvs : f.view_shape.length = f.data.shape.length)
    (hsl : f.view_slice.length = f.data.shape.length)
    (hpos : ∀ b ∈ buffer.shape, 0 < b)
    (hext : List.zipWith sliceExtent f.view_slice f.data.shape = f.view_shape) :
    ∃ g, assign f buffer = some g ∧ g.shape = f.data.shape ∧
      (∀ idx, f.inView idx = true → g.val idx = tileVal buffer (f.relIdx idx)) ∧
      (∀ idx, f.inView idx = false → g.val idx = f.data.val idx) := by
  have hlen : f.view_shape.length = buffer.shape.length := hvs.trans hrank
  have hguard : f.data.shape.length = buffer.shape.length
      ∧ f.view_shape.length = f.data.shape.length
      ∧ f.view_slice.length = f.data.shape.length
      ∧ (∀ b ∈ buffer.shape, b ≠ 0)
      ∧ List.zipWith sliceExtent f.view_slice f.data.shape =
          List.zipWith min f.view_shape
            (tiledShape buffer.shape (assignReps f.view_shape buffer.shape)) := by
    refine ⟨hrank, hvs, hsl, fun b hb => (hpos b hb).ne', ?_⟩
    rw [hext, min_tiled_eq f.view_shape buffer.shape hlen hpos]
  refine ⟨⟨f.data.shape,
    fun idx => if f.inView idx then tileVal buffer (f.relIdx idx) else f.data.val idx⟩,
    ?_, rfl, ?_, ?_⟩
  · unfold assign
    rw [if_pos hguard]
  · intro idx hIdx
    simp [hIdx]
  · intro idx hIdx
    simp [hIdx]

/-- C7: for a field whose attributes span all axes and a source buffer of
equal rank with positive sizes, assign writes exactly the view region,
filling it with the source tiled along every axis (the written value at a
view point is the source value at the view-relative index reduced modulo
the source shape), and leaves every backing-buffer element outside the view
slice unchanged. -/
theorem assign_tiles_view {f : Field} {buffer : NDArray}
    (hrank : f.data.shape.length = buffer.shape.length)
    (hvs : f.view_shape.length = f.data.shape.length)
    (hsl : f.view_slice.length = f.data.shape.length)
    (hpos : ∀ b ∈ buffer.shape, 0 < b)
    (hext : List.zipWith sliceExtent f.view_slice f.data.shape = f.view_shape) :
    ∃ g, assign f buffer = some g ∧ g.shape = f.data.shape ∧
      (∀ idx, f.inView idx = true → g.val idx = tileVal buffer (f.relIdx idx)) ∧
      (∀ idx, f.inView idx = false → g.val idx = f.data.val idx) :=
  assign_some_spec hrank hvs hsl hpos hext

/-- C7 (witness): a length-1 source tiled across a 2-point view inside a
3-point padded buffer: both view points receive the repeated source value
and the padding point keeps its old value. -/
theorem assign_tiles_view_witness :
    ∃ g, assign ⟨⟨[3], fun _ => pf0⟩, [2], [(0, 2)]⟩ ⟨[1], fun _ => pfOne⟩ = some g ∧
      g.shape = (⟨⟨[3], fun _ => pf0⟩, [2], [(0, 2)]⟩ : Field).data.shape ∧
      (∀ idx, (⟨⟨[3], fun _ => pf0⟩, [2], [(0, 2)]⟩ : Field).inView idx = true →
        g.val idx = tileVal ⟨[1], fun _ => pfOne⟩
          ((⟨⟨[3], fun _ => pf0⟩, [2], [(0, 2)]⟩ : Field).relIdx idx)) ∧
      (∀ idx, (⟨⟨[3], fun _ => pf0⟩, [2], [(0, 2)]⟩ : Field).inView idx = false →
        g.val idx = (⟨⟨[3], fun _ => pf0⟩, [2], [(0, 2)]⟩ : Field).data.val idx) :=
  @assign_tiles_view ⟨⟨[3], fun _ => pf0⟩, [2], [(0, 2)]⟩ ⟨[1], fun _ => pfOne⟩
    (by decide) (by decide) (by decide) (by decide) (by decide)

/-- C9 (counterexample): with view extent 0 along an axis and a strictly
larger source (size 1 > 0), assign is called and does not fail, but the
tile repetition count along that axis is 0, not 1. -/
theorem assign_zero_view_reps :
    assignReps [0] [1] = [0] ∧ ((0 : ℤ) ≠ 1) ∧ (0 : ℕ) < 1 ∧
    (assign ⟨⟨[1], fun _ => pf0⟩, [0], [(0, 0)]⟩ ⟨[1], fun _ => pfOne⟩).isSome = true := by
  decide

/-- C9 (amended): when the source buffer is strictly larger than the view
along an axis of nonzero view extent, assign does not fail, the repetition
count on that axis is 1, and only the leading view-sized block of the
source along that axis is read: the view-relative index stays below the
view extent, on which reduction modulo the source size is the identity
(silent truncation of the excess). -/
theorem assign_truncates_larger_source {f : Field} {buffer : NDArray} {a va ba : ℕ}
    (hrank : f.data.shape.length = buffer.shape.length)
    (hvs : f.view_shape.length = f.data.shape.length)
    (hsl : f.view_slice.length = f.data.shape.length)
    (hpos : ∀ b ∈ buffer.shape, 0 < b)
    (hext : List.zipWith sliceExtent f.view_slice f.data.shape = f.view_shape)
    (hva : f.view_shape[a]? = some va) (hba : buffer.shape[a]? = some ba)
    (hv1 : 0 < va) (hlt : va < ba) :
    (assignReps f.view_shape buffer.shape)[a]? = some 1 ∧
    ∃ g, assign f buffer = some g ∧
      (∀ idx, f.inView idx = true → g.val idx = tileVal buffer (f.relIdx idx)) ∧
      (∀ idx ia sa, f.inView idx = true → idx[a]? = some ia →
        f.view_slice[a]? = some sa →
        ia - sa.1 < va ∧ (ia - sa.1) % ba = ia - sa.1) := by
  constructor
  · unfold assignReps
    rw [List.getElem?_zipWith_eq_some]
    exact ⟨va, ba, hva, hba, repsOf_eq_one hv1 (Nat.le_of_lt hlt)⟩
  · obtain ⟨g, hg, _, hin, _⟩ := assign_some_spec hrank hvs hsl hpos hext
    refine ⟨g, hg, hin, ?_⟩
    intro idx ia sa hIn hia hsa
    have hlt_sl : a < f.view_slice.length := (List.getElem?_eq_some.mp hsa).1
    have hlt_sh : a < f.data.shape.length := hsl ▸ hlt_sl
    have hn : f.data.shape[a]? = some (f.data.shape[a]) := List.getElem?_eq_getElem hlt_sh
    have hbounds := inSlices_getElem? hIn hsa hn hia
    have hext_a : (List.zipWith sliceExtent f.view_slice f.data.shape)[a]? =
        some (sliceExtent sa f.data.shape[a]) := by
      rw [List.getElem?_zipWith_eq_some]
      exact ⟨sa, f.data.shape[a], hsa, hn, rfl⟩
    rw [hext, hva] at hext_a
    have hva_eq : sliceExtent sa f.data.shape[a] = va := by
      injection hext_a.symm
    unfold sliceExtent at hva_eq
    have h1 : ia - sa.1 < va := by omega
    exact ⟨h1, Nat.mod_eq_of_lt (h1.trans hlt)⟩

/-- C9 (witness): a length-5 source assigned into a 2-point view: assign
succeeds with repetition count 1 on that axis and reads only source indices
below 2. -/
theorem assign_truncates_larger_source_witness :
    (assignReps ([2] : List ℕ) ([5] : List ℕ))[(0 : ℕ)]? = some 1 ∧
    ∃ g, assign ⟨⟨[3], fun _ => pf0⟩, [2], [(1, 3)]⟩ ⟨[5], fun _ => pfOne⟩ = some g ∧
      (∀ idx, (⟨⟨[3], fun _ => pf0⟩, [2], [(1, 3)]⟩ : Field).inView idx = true →
        g.val idx = tileVal ⟨[5], fun _ => pfOne⟩
          ((⟨⟨[3], fun _ => pf0⟩, [2], [(1, 3)]⟩ : Field).relIdx idx)) ∧
      (∀ idx ia sa,
        (⟨⟨[3], fun _ => pf0⟩, [2], [(1, 3)]⟩ : Field).inView idx = true →
        idx[(0 : ℕ)]? = some ia →
        (⟨⟨[3], fun _ => pf0⟩, [2], [(1, 3)]⟩ : Field).view_slice[(0 : ℕ)]? = some sa →
        ia - sa.1 < 2 ∧ (ia - sa.1) % 5 = ia - sa.1) :=
  @assign_truncates_larger_source ⟨⟨[3], fun _ => pf0⟩, [2], [(1, 3)]⟩
    ⟨[5], fun _ => pfOne⟩ 0 2 5
    (by decide) (by decide) (by decide) (by decide) (by decide) (by decide) (by decide)
    (by decide) (by decide)

end IfsPhys
